import Mathlib

/-!
# Verification of `invariant_point_attention.py`

A shallow embedding of the invariant-point-attention module, in two layers:

* a shape-level semantics of the forward pass (`forwardShape`), where each
  tensor is represented by its list of dimension sizes and every operation
  either produces the resulting shape or fails the way the tensor library
  would (broadcast errors, rank errors, feature-size mismatches);
* a value-level semantics over the reals (`forward` and its stages), where a
  tensor of shape (a, b, c) is a function `Fin a → Fin b → Fin c → ℝ` and the
  `(b h)` axes folded together by the rearranges are kept as a pair of
  indices.
-/

namespace InvariantPointAttention

/-! ## Shape-level embedding -/

/-- A tensor shape: the list of dimension sizes, outermost axis first. -/
abbrev Shape : Type := List ℕ

/-- Two axis sizes broadcast together when they are equal or one of them is 1. -/
def dimCompat (a b : ℕ) : Bool := a == b || a == 1 || b == 1

/-- Broadcast two shapes given with their axes reversed (innermost axis first). -/
def broadcastRev : List ℕ → List ℕ → Option (List ℕ)
  | [], ys => some ys
  | x :: xs, [] => some (x :: xs)
  | x :: xs, y :: ys =>
    if dimCompat x y then (broadcastRev xs ys).map (fun r => max x y :: r) else none

/-- PyTorch-style broadcasting of two shapes: align from the trailing axis. -/
def broadcastShapes (s t : Shape) : Option Shape :=
  (broadcastRev s.reverse t.reverse).map List.reverse

/-- Shape rule of `nn.Linear(inF, outF)` applied to a batched input: the last
axis must equal the in-feature width and is replaced by the out-feature width. -/
def linearShape (inF outF : ℕ) (s : Shape) : Except String Shape :=
  if s.getLast? = some inF then .ok (s.dropLast ++ [outF])
  else .error "linear: in_features mismatch"

/-- Shape rule of the einops rearrange `b n (h d) -> (b h) n d`. -/
def splitHeadsShape (h : ℕ) : Shape → Except String Shape
  | [b, n, m] =>
    if 0 < h ∧ m % h = 0 then .ok [b * h, n, m / h]
    else .error "rearrange: cannot split heads"
  | _ => .error "rearrange: expected rank 3"

/-- Shape rule of the einops rearrange `b n (h d c) -> (b h) n d c` with `c = 3`. -/
def splitHeadsPointShape (h : ℕ) : Shape → Except String Shape
  | [b, n, m] =>
    if 0 < h ∧ m % (h * 3) = 0 then .ok [b * h, n, m / (h * 3), 3]
    else .error "rearrange: cannot split point heads"
  | _ => .error "rearrange: expected rank 3"

/-- Shape rule of einsum `b i d, b j d -> b i j` (no broadcasting over labels). -/
def einsumQK : Shape → Shape → Except String Shape
  | [b1, i, d1], [b2, j, d2] =>
    if b1 = b2 ∧ d1 = d2 then .ok [b1, i, j] else .error "einsum qk: size mismatch"
  | _, _ => .error "einsum qk: rank"

/-- Shape rule of einsum `b i j, b j d -> b i d`. -/
def einsumAV : Shape → Shape → Except String Shape
  | [b1, i, j1], [b2, j2, d] =>
    if b1 = b2 ∧ j1 = j2 then .ok [b1, i, d] else .error "einsum av: size mismatch"
  | _, _ => .error "einsum av: rank"

/-- Shape rule of einsum `b h i j, b i j d -> b h i d`. -/
def einsumPairwiseAV : Shape → Shape → Except String Shape
  | [b1, h, i1, j1], [b2, i2, j2, d] =>
    if b1 = b2 ∧ i1 = i2 ∧ j1 = j2 then .ok [b1, h, i1, d]
    else .error "einsum pairwise av: size mismatch"
  | _, _ => .error "einsum pairwise av: rank"

/-- Shape rule of einsum `b i j, b j d c -> b i d c`. -/
def einsumPointAV : Shape → Shape → Except String Shape
  | [b1, i, j1], [b2, j2, d, c] =>
    if b1 = b2 ∧ j1 = j2 then .ok [b1, i, d, c] else .error "einsum point av: size mismatch"
  | _, _ => .error "einsum point av: rank"

/-- Shape rule of an elementwise binary operation with broadcasting. -/
def broadcastOpShape (s t : Shape) : Except String Shape :=
  match broadcastShapes s t with
  | some r => .ok r
  | none => .error "broadcast: incompatible shapes"

/-- Shape rule of the einops rearrange `b ... h -> (b h) ...`. -/
def foldLastIntoBatchShape : Shape → Except String Shape
  | b :: rest =>
    match rest.reverse with
    | h :: mid => .ok ((b * h) :: mid.reverse)
    | [] => .error "rearrange: expected rank at least 2"
  | [] => .error "rearrange: expected rank at least 2"

/-- Shape rule of the rearrange `b i d c -> b i () d c`. -/
def unsqueezeQShape : Shape → Except String Shape
  | [b, i, d, c] => .ok [b, i, 1, d, c]
  | _ => .error "rearrange: expected rank 4"

/-- Shape rule of the rearrange `b j d c -> b () j d c`. -/
def unsqueezeKShape : Shape → Except String Shape
  | [b, j, d, c] => .ok [b, 1, j, d, c]
  | _ => .error "rearrange: expected rank 4"

/-- Shape rule of `.sum(dim = -2)`. -/
def sumDimNeg2Shape (s : Shape) : Except String Shape :=
  match s.reverse with
  | c :: _ :: rest => .ok ((c :: rest).reverse)
  | _ => .error "sum: dim out of range"

/-- Shape rule of `.sum(dim = -1)`. -/
def sumLastShape (s : Shape) : Except String Shape :=
  match s.reverse with
  | _ :: rest => .ok rest.reverse
  | [] => .error "sum: dim out of range"

/-- Shape of the pairwise validity matrix built from a 2-D mask:
`rearrange(mask, b i -> b i ()) * rearrange(mask, b j -> b () j)`. -/
def maskPairShape : Shape → Except String Shape
  | [mb, mi] => broadcastOpShape [mb, mi, 1] [mb, 1, mi]
  | _ => .error "rearrange: mask expected rank 2"

/-- Shape rule of `masked_fill`: the mask must broadcast to the tensor's own
shape (the tensor itself is never expanded). -/
def maskedFillShape (t m : Shape) : Except String Shape :=
  if broadcastShapes m t = some t then .ok t
  else .error "masked_fill: mask is not broadcastable to the logits shape"

/-- Shape rule of `softmax(dim = -1)`. -/
def softmaxShape (s : Shape) : Except String Shape :=
  if s = [] then .error "softmax: dim out of range" else .ok s

/-- Shape rule of the rearrange `(b h) n d -> b n (h d)`. -/
def mergeHeadsShape (h : ℕ) : Shape → Except String Shape
  | [bh, n, d] =>
    if 0 < h ∧ bh % h = 0 then .ok [bh / h, n, h * d]
    else .error "rearrange: cannot merge heads"
  | _ => .error "rearrange: expected rank 3"

/-- Shape rule of the rearrange `b h n d -> b n (h d)` with the head axis checked. -/
def mergeHeadsAxisShape (h : ℕ) : Shape → Except String Shape
  | [b, h2, n, d] =>
    if h2 = h then .ok [b, n, h * d] else .error "rearrange: head axis mismatch"
  | _ => .error "rearrange: expected rank 4"

/-- Shape rule of the rearrange `(b h) n d c -> b n (h d c)`. -/
def mergeHeadsPointShape (h : ℕ) : Shape → Except String Shape
  | [bh, n, d, c] =>
    if 0 < h ∧ bh % h = 0 then .ok [bh / h, n, h * d * c]
    else .error "rearrange: cannot merge point heads"
  | _ => .error "rearrange: expected rank 4"

/-- Shape rule of the rearrange `(b h) i j -> b h i j`. -/
def unfoldBatchHeadsShape (h : ℕ) : Shape → Except String Shape
  | [bh, i, j] =>
    if 0 < h ∧ bh % h = 0 then .ok [bh / h, h, i, j]
    else .error "rearrange: cannot unfold heads"
  | _ => .error "rearrange: expected rank 3"

/-- Shape rule of `torch.cat(dim = -1)`: the shapes agree except on the last
axis, whose sizes add. -/
def catLastShape (s t : Shape) : Except String Shape :=
  match s.reverse, t.reverse with
  | a :: rs, b2 :: rt =>
    if rs = rt then .ok (((a + b2) :: rs).reverse) else .error "cat: shapes differ"
  | _, _ => .error "cat: zero-dim tensors"

/-- The construction-time configuration of `InvariantPointAttention`
(`pairwise_repr_dim` already resolved via its `dim` default). -/
structure Config where
  dim : ℕ
  heads : ℕ
  scalar_key_dim : ℕ
  scalar_value_dim : ℕ
  point_key_dim : ℕ
  point_value_dim : ℕ
  pairwise_repr_dim : ℕ

/-- `single_repr.shape[0]`: the leading (batch) axis of a shape. -/
def headDimShape : Shape → Except String ℕ
  | b :: _ => .ok b
  | [] => .error "single_repr: rank"

/-- The optional mask block of the forward pass: build the pairwise validity
matrix from the 2-D mask and `masked_fill` the logits with it; without a mask
the logits pass through unchanged. -/
def maskStepShape (logits : Shape) : Option Shape → Except String Shape
  | none => .ok logits
  | some sm => maskPairShape sm >>= fun mp => maskedFillShape logits mp

/-- The six per-head query/key/value shapes produced by the projection stage. -/
structure ProjShapes where
  qs : Shape
  ks : Shape
  vs : Shape
  qp : Shape
  kp : Shape
  vp : Shape

/-- Projection stage: the six `nn.Linear` applications followed by the six
head-splitting rearranges, in source order. -/
def projectionShapes (cfg : Config) (sSingle : Shape) : Except String ProjShapes := do
  let qs0 ← linearShape cfg.dim (cfg.scalar_key_dim * cfg.heads) sSingle
  let ks0 ← linearShape cfg.dim (cfg.scalar_key_dim * cfg.heads) sSingle
  let vs0 ← linearShape cfg.dim (cfg.scalar_value_dim * cfg.heads) sSingle
  let qp0 ← linearShape cfg.dim (cfg.point_key_dim * cfg.heads * 3) sSingle
  let kp0 ← linearShape cfg.dim (cfg.point_key_dim * cfg.heads * 3) sSingle
  let vp0 ← linearShape cfg.dim (cfg.point_value_dim * cfg.heads * 3) sSingle
  let qs ← splitHeadsShape cfg.heads qs0
  let ks ← splitHeadsShape cfg.heads ks0
  let vs ← splitHeadsShape cfg.heads vs0
  let qp ← splitHeadsPointShape cfg.heads qp0
  let kp ← splitHeadsPointShape cfg.heads kp0
  let vp ← splitHeadsPointShape cfg.heads vp0
  Except.ok ⟨qs, ks, vs, qp, kp, vp⟩

/-- Pairwise logit stage: `self.to_pairwise_attn_bias(pairwise_repr)`, the
bias `nn.Linear` followed by the `b ... h -> (b h) ...` rearrange. -/
def pairwiseLogitsShape (cfg : Config) (sPair : Shape) : Except String Shape := do
  let pairBias ← linearShape cfg.pairwise_repr_dim cfg.heads sPair
  foldLastIntoBatchShape pairBias

/-- Point logit stage: broadcasted query/key difference, squared-distance sum
over the point-component axis, per-head weights broadcast, and the final sum
over the spatial axis. -/
def pointLogitsShape (cfg : Config) (sSingle qp kp : Shape) : Except String Shape := do
  let qpu ← unsqueezeQShape qp
  let kpu ← unsqueezeKShape kp
  let diff ← broadcastOpShape qpu kpu
  let dist ← sumDimNeg2Shape diff
  let bS ← headDimShape sSingle
  let weighted ← broadcastOpShape dist [bS * cfg.heads, 1, 1, 1]
  sumLastShape weighted

/-- Combine stage: add the three logit tensors, apply the optional mask step
and the softmax. -/
def combineMaskSoftmaxShape (ls lp lpt : Shape) (sMask : Option Shape) :
    Except String Shape := do
  let logits1 ← broadcastOpShape ls lp
  let logits2 ← broadcastOpShape logits1 lpt
  let logits ← maskStepShape logits2 sMask
  softmaxShape logits

/-- Aggregation stage: the three attention-weighted sums, the head merges,
the concatenation, and the output projection. -/
def aggregateShape (cfg : Config) (sPair attnS vs vp : Shape) :
    Except String Shape := do
  let resScalar0 ← einsumAV attnS vs
  let attnHeads ← unfoldBatchHeadsShape cfg.heads attnS
  let resPairwise0 ← einsumPairwiseAV attnHeads sPair
  let resPoints0 ← einsumPointAV attnS vp
  let resScalar ← mergeHeadsShape cfg.heads resScalar0
  let resPairwise ← mergeHeadsAxisShape cfg.heads resPairwise0
  let resPoints ← mergeHeadsPointShape cfg.heads resPoints0
  let cat1 ← catLastShape resScalar resPairwise
  let results ← catLastShape cat1 resPoints
  linearShape
    (cfg.scalar_value_dim * cfg.heads + cfg.pairwise_repr_dim * cfg.heads +
      cfg.point_value_dim * cfg.heads * 3)
    cfg.dim results

/-- Shape semantics of `InvariantPointAttention.forward`, operation by
operation in source order, staged as in the source's comment sections.
`sRot` and `sTrans` are the shapes of the `rotations` and `translations`
arguments; the source never reads them, so no operation inspects them. -/
def forwardShape (cfg : Config) (sSingle sPair : Shape)
    (sRot sTrans : Shape) (sMask : Option Shape) : Except String Shape := do
  let p ← projectionShapes cfg sSingle
  let ls ← einsumQK p.qs p.ks
  let lp ← pairwiseLogitsShape cfg sPair
  let lpt ← pointLogitsShape cfg sSingle p.qp p.kp
  let attnS ← combineMaskSoftmaxShape ls lp lpt sMask
  aggregateShape cfg sPair attnS p.vs p.vp

/-! ## Value-level embedding

Tensors are total functions on `Fin`-indexed axes with real entries.  The
`(b h)` axes that the source folds together with einops are kept as a pair of
indices `(bi : Fin b) (hi : Fin heads)`; the fold is a bijection, so this is
the same data.  The softmax is the exact real softmax. -/

/-- `max_neg_value(t) = -torch.finfo(t.dtype).max`; the dtype's largest finite
magnitude is abstracted as the real parameter `finfoMax`. -/
def max_neg_value (finfoMax : ℝ) : ℝ := -finfoMax

/-- `F.softplus`, the smooth nonnegative map applied to the raw point weights. -/
noncomputable def softplus (x : ℝ) : ℝ := Real.log (1 + Real.exp x)

/-- `self.scalar_attn_logits_scale = (3 * scalar_key_dim) ** -0.5`. -/
noncomputable def scalar_attn_logits_scale (dk : ℕ) : ℝ :=
  ((3 : ℝ) * dk) ^ (-(1 / 2 : ℝ))

/-- `self.point_attn_logits_scale = ((3 * point_key_dim) * (9 / 2)) ** -0.5`.
Defined in `__init__` (line 57); the forward pass never uses it. -/
noncomputable def point_attn_logits_scale (pk : ℕ) : ℝ :=
  (((3 : ℝ) * pk) * (9 / 2)) ^ (-(1 / 2 : ℝ))

/-- `self.pairwise_attn_logits_scale = 3 ** -0.5`. -/
noncomputable def pairwise_attn_logits_scale : ℝ := (3 : ℝ) ^ (-(1 / 2 : ℝ))

/-- `def apply_transform(x, rot, trans): return x` — the identity, the frame
arguments are ignored. -/
def apply_transform {n : ℕ} (x : Fin n → Fin 3 → ℝ)
    (rot : Fin n → Fin 3 → Fin 3 → ℝ) (trans : Fin n → Fin 3 → ℝ) :
    Fin n → Fin 3 → ℝ :=
  x

/-- `def apply_inverse_transform(x, rot, trans): return x` — also the identity. -/
def apply_inverse_transform {n : ℕ} (x : Fin n → Fin 3 → ℝ)
    (rot : Fin n → Fin 3 → Fin 3 → ℝ) (trans : Fin n → Fin 3 → ℝ) :
    Fin n → Fin 3 → ℝ :=
  x

/-- Index of one channel of the concatenated `results` tensor, in the
concatenation order of the source: scalar stream, pairwise stream, point
stream, each already merged over heads. -/
abbrev OutIdx (heads dv pd pv : ℕ) : Type :=
  (Fin heads × Fin dv) ⊕ (Fin heads × Fin pd) ⊕ (Fin heads × Fin pv × Fin 3)

/-- The learned parameters of `InvariantPointAttention`.  Each `nn.Linear` with
output channels laid out as `(h d)` or `(h d c)` is stored with those axes
split, matching the `rearrange` that immediately follows it in the source. -/
structure Params (dim heads dk dv pk pv pd : ℕ) where
  to_scalar_q : Fin heads → Fin dk → Fin dim → ℝ
  to_scalar_k : Fin heads → Fin dk → Fin dim → ℝ
  to_scalar_v : Fin heads → Fin dv → Fin dim → ℝ
  point_weights : Fin heads → ℝ
  to_point_q : Fin heads → Fin pk → Fin 3 → Fin dim → ℝ
  to_point_k : Fin heads → Fin pk → Fin 3 → Fin dim → ℝ
  to_point_v : Fin heads → Fin pv → Fin 3 → Fin dim → ℝ
  to_pairwise_w : Fin heads → Fin pd → ℝ
  to_pairwise_b : Fin heads → ℝ
  to_out_w : Fin dim → OutIdx heads dv pd pv → ℝ
  to_out_b : Fin dim → ℝ

section Model

variable {b n dim heads dk dv pk pv pd : ℕ}

/-- `self.to_scalar_q(x)`, heads split out: `q_scalar[(bi h)] i d`. -/
noncomputable def q_scalar (P : Params dim heads dk dv pk pv pd)
    (x : Fin b → Fin n → Fin dim → ℝ) (bi : Fin b) (h : Fin heads)
    (i : Fin n) (d : Fin dk) : ℝ :=
  ∑ f, P.to_scalar_q h d f * x bi i f

/-- `self.to_scalar_k(x)`, heads split out. -/
noncomputable def k_scalar (P : Params dim heads dk dv pk pv pd)
    (x : Fin b → Fin n → Fin dim → ℝ) (bi : Fin b) (h : Fin heads)
    (i : Fin n) (d : Fin dk) : ℝ :=
  ∑ f, P.to_scalar_k h d f * x bi i f

/-- `self.to_scalar_v(x)`, heads split out. -/
noncomputable def v_scalar (P : Params dim heads dk dv pk pv pd)
    (x : Fin b → Fin n → Fin dim → ℝ) (bi : Fin b) (h : Fin heads)
    (i : Fin n) (d : Fin dv) : ℝ :=
  ∑ f, P.to_scalar_v h d f * x bi i f

/-- `self.to_point_q(x)`, heads and the 3 spatial axes split out. -/
noncomputable def q_point (P : Params dim heads dk dv pk pv pd)
    (x : Fin b → Fin n → Fin dim → ℝ) (bi : Fin b) (h : Fin heads)
    (i : Fin n) (d : Fin pk) (c : Fin 3) : ℝ :=
  ∑ f, P.to_point_q h d c f * x bi i f

/-- `self.to_point_k(x)`, heads and the 3 spatial axes split out. -/
noncomputable def k_point (P : Params dim heads dk dv pk pv pd)
    (x : Fin b → Fin n → Fin dim → ℝ) (bi : Fin b) (h : Fin heads)
    (i : Fin n) (d : Fin pk) (c : Fin 3) : ℝ :=
  ∑ f, P.to_point_k h d c f * x bi i f

/-- `self.to_point_v(x)`, heads and the 3 spatial axes split out. -/
noncomputable def v_point (P : Params dim heads dk dv pk pv pd)
    (x : Fin b → Fin n → Fin dim → ℝ) (bi : Fin b) (h : Fin heads)
    (i : Fin n) (d : Fin pv) (c : Fin 3) : ℝ :=
  ∑ f, P.to_point_v h d c f * x bi i f

/-- `attn_logits_scalar = einsum('b i d, b j d -> b i j', q_scalar, k_scalar)
* self.scalar_attn_logits_scale`. -/
noncomputable def attn_logits_scalar (P : Params dim heads dk dv pk pv pd)
    (x : Fin b → Fin n → Fin dim → ℝ) (bi : Fin b) (h : Fin heads)
    (i j : Fin n) : ℝ :=
  (∑ d, q_scalar P x bi h i d * k_scalar P x bi h j d) * scalar_attn_logits_scale dk

/-- `attn_logits_pairwise = self.to_pairwise_attn_bias(pairwise_repr) *
self.pairwise_attn_logits_scale` (the bias `nn.Linear` has a bias term). -/
noncomputable def attn_logits_pairwise (P : Params dim heads dk dv pk pv pd)
    (pair : Fin b → Fin n → Fin n → Fin pd → ℝ) (bi : Fin b) (h : Fin heads)
    (i j : Fin n) : ℝ :=
  ((∑ f, P.to_pairwise_w h f * pair bi i j f) + P.to_pairwise_b h) *
    pairwise_attn_logits_scale

/-- `point_dist = ((q_point[:, :, None] - k_point[:, None]) ** 2).sum(dim = -2)`:
for each spatial axis `c`, the sum over the point-component axis of the squared
query/key differences. -/
noncomputable def point_dist (P : Params dim heads dk dv pk pv pd)
    (x : Fin b → Fin n → Fin dim → ℝ) (bi : Fin b) (h : Fin heads)
    (i j : Fin n) (c : Fin 3) : ℝ :=
  ∑ d, (q_point P x bi h i d c - k_point P x bi h j d c) ^ 2

/-- `attn_logits_points = -0.5 * (point_dist * point_weights).sum(dim = -1)`
with `point_weights = F.softplus(self.point_weights)` broadcast per head. -/
noncomputable def attn_logits_points (P : Params dim heads dk dv pk pv pd)
    (x : Fin b → Fin n → Fin dim → ℝ) (bi : Fin b) (h : Fin heads)
    (i j : Fin n) : ℝ :=
  -(1 / 2 : ℝ) * ∑ c, point_dist P x bi h i j c * softplus (P.point_weights h)

/-- `attn_logits = attn_logits_scalar + attn_logits_pairwise + attn_logits_points`. -/
noncomputable def attn_logits (P : Params dim heads dk dv pk pv pd)
    (x : Fin b → Fin n → Fin dim → ℝ) (pair : Fin b → Fin n → Fin n → Fin pd → ℝ)
    (bi : Fin b) (h : Fin heads) (i j : Fin n) : ℝ :=
  attn_logits_scalar P x bi h i j + attn_logits_pairwise P pair bi h i j +
    attn_logits_points P x bi h i j

/-- The logits after the optional mask step: where the pairwise validity
`mask i AND mask j` fails, the logit is overwritten with `maskValue`
(`masked_fill(~mask, max_neg_value(attn_logits))` in the source). -/
noncomputable def masked_logits (P : Params dim heads dk dv pk pv pd)
    (x : Fin b → Fin n → Fin dim → ℝ) (pair : Fin b → Fin n → Fin n → Fin pd → ℝ)
    (maskValue : ℝ) (mo : Option (Fin b → Fin n → Bool))
    (bi : Fin b) (h : Fin heads) (i j : Fin n) : ℝ :=
  match mo with
  | none => attn_logits P x pair bi h i j
  | some m =>
    if m bi i && m bi j then attn_logits P x pair bi h i j else maskValue

/-- `attn = attn_logits.softmax(dim = -1)`: the exact real softmax over the
key axis of each `(batch, head, query)` row. -/
noncomputable def attn (P : Params dim heads dk dv pk pv pd)
    (x : Fin b → Fin n → Fin dim → ℝ) (pair : Fin b → Fin n → Fin n → Fin pd → ℝ)
    (maskValue : ℝ) (mo : Option (Fin b → Fin n → Bool))
    (bi : Fin b) (h : Fin heads) (i j : Fin n) : ℝ :=
  Real.exp (masked_logits P x pair maskValue mo bi h i j) /
    ∑ j', Real.exp (masked_logits P x pair maskValue mo bi h i j')

/-- `results_scalar = einsum('b i j, b j d -> b i d', attn, v_scalar)`. -/
noncomputable def results_scalar (P : Params dim heads dk dv pk pv pd)
    (x : Fin b → Fin n → Fin dim → ℝ) (pair : Fin b → Fin n → Fin n → Fin pd → ℝ)
    (maskValue : ℝ) (mo : Option (Fin b → Fin n → Bool))
    (bi : Fin b) (h : Fin heads) (i : Fin n) (d : Fin dv) : ℝ :=
  ∑ j, attn P x pair maskValue mo bi h i j * v_scalar P x bi h j d

/-- `results_pairwise = einsum('b h i j, b i j d -> b h i d', attn_with_heads,
pairwise_repr)`: the raw pairwise tensor is reused as the value stream. -/
noncomputable def results_pairwise (P : Params dim heads dk dv pk pv pd)
    (x : Fin b → Fin n → Fin dim → ℝ) (pair : Fin b → Fin n → Fin n → Fin pd → ℝ)
    (maskValue : ℝ) (mo : Option (Fin b → Fin n → Bool))
    (bi : Fin b) (h : Fin heads) (i : Fin n) (f : Fin pd) : ℝ :=
  ∑ j, attn P x pair maskValue mo bi h i j * pair bi i j f

/-- `results_points = einsum('b i j, b j d c -> b i d c', attn, v_point)`. -/
noncomputable def results_points (P : Params dim heads dk dv pk pv pd)
    (x : Fin b → Fin n → Fin dim → ℝ) (pair : Fin b → Fin n → Fin n → Fin pd → ℝ)
    (maskValue : ℝ) (mo : Option (Fin b → Fin n → Bool))
    (bi : Fin b) (h : Fin heads) (i : Fin n) (d : Fin pv) (c : Fin 3) : ℝ :=
  ∑ j, attn P x pair maskValue mo bi h i j * v_point P x bi h j d c

/-- `results = torch.cat((results_scalar, results_pairwise, results_points),
dim = -1)` after each stream has merged its heads back. -/
noncomputable def results_cat (P : Params dim heads dk dv pk pv pd)
    (x : Fin b → Fin n → Fin dim → ℝ) (pair : Fin b → Fin n → Fin n → Fin pd → ℝ)
    (maskValue : ℝ) (mo : Option (Fin b → Fin n → Bool))
    (bi : Fin b) (i : Fin n) : OutIdx heads dv pd pv → ℝ
  | Sum.inl (h, d) => results_scalar P x pair maskValue mo bi h i d
  | Sum.inr (Sum.inl (h, f)) => results_pairwise P x pair maskValue mo bi h i f
  | Sum.inr (Sum.inr (h, d, c)) => results_points P x pair maskValue mo bi h i d c

/-- Value semantics of `InvariantPointAttention.forward`.  `rot` and `trans`
are the `rotations` and `translations` arguments; as in the source they are
required but never read.  `finfoMax` is the dtype's largest finite value used
by `max_neg_value` for the mask sentinel. -/
noncomputable def forward (P : Params dim heads dk dv pk pv pd)
    (x : Fin b → Fin n → Fin dim → ℝ) (pair : Fin b → Fin n → Fin n → Fin pd → ℝ)
    (rot : Fin b → Fin n → Fin 3 → Fin 3 → ℝ) (trans : Fin b → Fin n → Fin 3 → ℝ)
    (finfoMax : ℝ) (mo : Option (Fin b → Fin n → Bool))
    (bi : Fin b) (i : Fin n) (o : Fin dim) : ℝ :=
  (∑ idx, P.to_out_w o idx *
      results_cat P x pair (max_neg_value finfoMax) mo bi i idx) +
    P.to_out_b o

end Model

/-! ## Concrete instances used by counterexamples and witnesses -/

/-- All-zero parameters at the smallest configuration
(`dim = heads = all key/value/pairwise dims = 1`). -/
noncomputable def zeroParams : Params 1 1 1 1 1 1 1 where
  to_scalar_q := fun _ _ _ => 0
  to_scalar_k := fun _ _ _ => 0
  to_scalar_v := fun _ _ _ => 0
  point_weights := fun _ => 0
  to_point_q := fun _ _ _ _ => 0
  to_point_k := fun _ _ _ _ => 0
  to_point_v := fun _ _ _ _ => 0
  to_pairwise_w := fun _ _ => 0
  to_pairwise_b := fun _ => 0
  to_out_w := fun _ _ => 0
  to_out_b := fun _ => 0

/-- Parameters at the smallest configuration whose point-query projection is
the constant 1 and whose other projections are zero, so that on the all-ones
input every point query is 1 and every point key is 0. -/
noncomputable def pointParams : Params 1 1 1 1 1 1 1 where
  to_scalar_q := fun _ _ _ => 0
  to_scalar_k := fun _ _ _ => 0
  to_scalar_v := fun _ _ _ => 0
  point_weights := fun _ => 0
  to_point_q := fun _ _ _ _ => 1
  to_point_k := fun _ _ _ _ => 0
  to_point_v := fun _ _ _ _ => 0
  to_pairwise_w := fun _ _ => 0
  to_pairwise_b := fun _ => 0
  to_out_w := fun _ _ => 0
  to_out_b := fun _ => 0

/-- The all-ones single representation at the smallest configuration. -/
noncomputable def onesSingle : Fin 1 → Fin 1 → Fin 1 → ℝ := fun _ _ _ => 1

/-- All-zero single representation with one batch and two entities. -/
noncomputable def zeroSingle2 : Fin 1 → Fin 2 → Fin 1 → ℝ := fun _ _ _ => 0

/-- All-zero pairwise representation with one batch and two entities. -/
noncomputable def zeroPair2 : Fin 1 → Fin 2 → Fin 2 → Fin 1 → ℝ := fun _ _ _ _ => 0

/-- The mask that keeps entity 0 and drops entity 1. -/
def maskFirst : Fin 1 → Fin 2 → Bool := fun _ i => decide (i = 0)

/-- The zero point set on a single entity, used to separate `apply_transform`
from a genuine rigid map. -/
noncomputable def cexPts : Fin 1 → Fin 3 → ℝ := fun _ _ => 0

/-- Zero rotation matrices for the single entity of `cexPts`. -/
noncomputable def cexRot : Fin 1 → Fin 3 → Fin 3 → ℝ := fun _ _ _ => 0

/-- All-ones translation vectors for the single entity of `cexPts`. -/
noncomputable def cexTrans : Fin 1 → Fin 3 → ℝ := fun _ _ => 1

/-- A small concrete configuration: `dim = 4`, `heads = 2`, all key/value
point dims 1, `pairwise_repr_dim = 4`. -/
def cfgSmall : Config :=
  { dim := 4, heads := 2, scalar_key_dim := 1, scalar_value_dim := 1,
    point_key_dim := 1, point_value_dim := 1, pairwise_repr_dim := 4 }

/-! ## Helper lemmas -/

section Lemmas

variable {b n dim heads dk dv pk pv pd : ℕ}

theorem point_dist_ones :
    ∀ c : Fin 3, point_dist pointParams onesSingle 0 0 0 0 c = 1 := by
  intro c
  simp [point_dist, q_point, k_point, pointParams, onesSingle]

theorem attn_logits_points_ones :
    attn_logits_points pointParams onesSingle 0 0 0 0 =
      -(1 / 2 : ℝ) * (3 * softplus 0) := by
  have h : ∀ c : Fin 3,
      point_dist pointParams onesSingle 0 0 0 0 c *
        softplus (pointParams.point_weights 0) = softplus 0 := by
    intro c
    rw [point_dist_ones c]
    simp [pointParams]
  simp only [attn_logits_points]
  rw [Finset.sum_congr rfl fun c _ => h c, Finset.sum_const, Finset.card_univ]
  simp [Fintype.card_fin]

theorem softplus_zero_pos : 0 < softplus 0 := by
  rw [softplus, Real.exp_zero]
  have h2 : (1 : ℝ) + 1 = 2 := by norm_num
  rw [h2]
  exact Real.log_pos (by norm_num)

theorem point_scale_lt_one : point_attn_logits_scale 1 < 1 := by
  rw [point_attn_logits_scale]
  apply Real.rpow_lt_one_of_one_lt_of_neg
  · norm_num
  · norm_num

theorem point_scale_pos : 0 < point_attn_logits_scale 1 := by
  rw [point_attn_logits_scale]
  apply Real.rpow_pos_of_pos
  norm_num

theorem attn_sum_one (P : Params dim heads dk dv pk pv pd)
    (x : Fin b → Fin n → Fin dim → ℝ) (pair : Fin b → Fin n → Fin n → Fin pd → ℝ)
    (mv : ℝ) (mo : Option (Fin b → Fin n → Bool)) (bi : Fin b) (h : Fin heads)
    (i : Fin n) :
    (∑ j, attn P x pair mv mo bi h i j) = 1 := by
  have hZ : 0 < ∑ j', Real.exp (masked_logits P x pair mv mo bi h i j') :=
    Finset.sum_pos (fun j' _ => Real.exp_pos _) ⟨i, Finset.mem_univ i⟩
  unfold attn
  rw [← Finset.sum_div]
  exact div_self (ne_of_gt hZ)

theorem attn_masked_le (P : Params dim heads dk dv pk pv pd)
    (x : Fin b → Fin n → Fin dim → ℝ) (pair : Fin b → Fin n → Fin n → Fin pd → ℝ)
    (mv : ℝ) (m : Fin b → Fin n → Bool) (bi : Fin b) (h : Fin heads)
    (i j j₀ : Fin n) (ε : ℝ)
    (hmi : m bi i = true) (hmj : m bi j = false) (hmj₀ : m bi j₀ = true)
    (hε : 0 < ε)
    (hgap : mv + Real.log ε⁻¹ ≤ attn_logits P x pair bi h i j₀) :
    attn P x pair mv (some m) bi h i j ≤
      ε * Finset.univ.sup' ⟨j, Finset.mem_univ j⟩
        (fun j' => attn P x pair mv (some m) bi h i j') := by
  have hZ : 0 < ∑ j', Real.exp (masked_logits P x pair mv (some m) bi h i j') :=
    Finset.sum_pos (fun j' _ => Real.exp_pos _) ⟨j, Finset.mem_univ j⟩
  have hLj : masked_logits P x pair mv (some m) bi h i j = mv := by
    simp [masked_logits, hmj]
  have hLj₀ : masked_logits P x pair mv (some m) bi h i j₀ =
      attn_logits P x pair bi h i j₀ := by
    simp [masked_logits, hmi, hmj₀]
  have hnum : Real.exp mv ≤ ε * Real.exp (attn_logits P x pair bi h i j₀) := by
    have h1 : mv ≤ Real.log ε + attn_logits P x pair bi h i j₀ := by
      rw [Real.log_inv] at hgap
      linarith
    calc Real.exp mv ≤ Real.exp (Real.log ε + attn_logits P x pair bi h i j₀) :=
          Real.exp_le_exp.mpr h1
      _ = ε * Real.exp (attn_logits P x pair bi h i j₀) := by
          rw [Real.exp_add, Real.exp_log hε]
  have hstep : attn P x pair mv (some m) bi h i j ≤
      ε * attn P x pair mv (some m) bi h i j₀ := by
    unfold attn
    rw [hLj, hLj₀, ← mul_div_assoc]
    exact (div_le_div_iff_of_pos_right hZ).mpr hnum
  have hsup : attn P x pair mv (some m) bi h i j₀ ≤
      Finset.univ.sup' ⟨j, Finset.mem_univ j⟩
        (fun j' => attn P x pair mv (some m) bi h i j') :=
    Finset.le_sup' _ (Finset.mem_univ j₀)
  calc attn P x pair mv (some m) bi h i j
      ≤ ε * attn P x pair mv (some m) bi h i j₀ := hstep
    _ ≤ ε * Finset.univ.sup' ⟨j, Finset.mem_univ j⟩
          (fun j' => attn P x pair mv (some m) bi h i j') :=
        mul_le_mul_of_nonneg_left hsup (le_of_lt hε)

end Lemmas

theorem attn_logits_zero (bi : Fin 1) (h : Fin 1) (i j : Fin 2) :
    attn_logits zeroParams zeroSingle2 zeroPair2 bi h i j = 0 := by
  simp [attn_logits, attn_logits_scalar, attn_logits_pairwise, attn_logits_points,
    q_scalar, k_scalar, point_dist, q_point, k_point, zeroParams, zeroSingle2, zeroPair2]

/-! ## Claim theorems -/

/-- C8: for every input, the scalar attention logit at
(batch, head, query i, key j) equals `scale_s` times the dot product of the
scalar query of entity i and the scalar key of entity j for that head, with
`scale_s = (3 * scalar_key_dim)^(-1/2)`. -/
theorem scalar_logit_is_scaled_dot_product
    {b n dim heads dk dv pk pv pd : ℕ}
    (P : Params dim heads dk dv pk pv pd)
    (x : Fin b → Fin n → Fin dim → ℝ) (bi : Fin b) (h : Fin heads)
    (i j : Fin n) :
    attn_logits_scalar P x bi h i j =
      ((3 : ℝ) * dk) ^ (-(1 / 2 : ℝ)) *
        ∑ d, q_scalar P x bi h i d * k_scalar P x bi h j d := by
  simp only [attn_logits_scalar, scalar_attn_logits_scale]
  exact mul_comm _ _

/-- C10: the `rotations` and `translations` arguments are required but never
read by the forward computation, so two calls identical except for those
arguments produce identical outputs. -/
theorem forward_ignores_rotations_translations
    {b n dim heads dk dv pk pv pd : ℕ}
    (P : Params dim heads dk dv pk pv pd)
    (x : Fin b → Fin n → Fin dim → ℝ)
    (pair : Fin b → Fin n → Fin n → Fin pd → ℝ)
    (rot rot' : Fin b → Fin n → Fin 3 → Fin 3 → ℝ)
    (trans trans' : Fin b → Fin n → Fin 3 → ℝ)
    (finfoMax : ℝ) (mo : Option (Fin b → Fin n → Bool)) :
    forward P x pair rot trans finfoMax mo =
      forward P x pair rot' trans' finfoMax mo :=
  rfl

/-- C2 counterexample: `apply_transform` does not map a local point to
`rotation * local + translation`.  With the zero point, the zero rotation and
the translation (1,1,1), the transform returns 0 while the claimed global
coordinate is 1. -/
theorem apply_transform_is_not_rigid_map :
    apply_transform cexPts cexRot cexTrans 0 0 ≠
      (∑ c, cexRot 0 0 c * cexPts 0 c) + cexTrans 0 0 := by
  simp [apply_transform, cexPts, cexRot, cexTrans]

/-- C2 amended: both frame transforms are the identity and ignore the frames,
so no point is ever mapped into a global frame; the output is nevertheless
unchanged when every entity's rigid frame is composed with one arbitrary
global rotation `R` and translation `T`, because the frames are never read. -/
theorem frame_transforms_are_identity_and_output_frame_invariant
    {b n dim heads dk dv pk pv pd : ℕ}
    (P : Params dim heads dk dv pk pv pd)
    (x : Fin b → Fin n → Fin dim → ℝ)
    (pair : Fin b → Fin n → Fin n → Fin pd → ℝ)
    (rot : Fin b → Fin n → Fin 3 → Fin 3 → ℝ)
    (trans : Fin b → Fin n → Fin 3 → ℝ)
    (pts : Fin n → Fin 3 → ℝ) (fr : Fin n → Fin 3 → Fin 3 → ℝ)
    (ft : Fin n → Fin 3 → ℝ)
    (R : Fin 3 → Fin 3 → ℝ) (T : Fin 3 → ℝ)
    (finfoMax : ℝ) (mo : Option (Fin b → Fin n → Bool)) :
    apply_transform pts fr ft = pts ∧
    apply_inverse_transform pts fr ft = pts ∧
    forward P x pair
        (fun bi i c c' => ∑ k, R c k * rot bi i k c')
        (fun bi i c => (∑ k, R c k * trans bi i k) + T c) finfoMax mo =
      forward P x pair rot trans finfoMax mo :=
  ⟨rfl, rfl, rfl⟩

/-- C1 (code bug): on the all-ones input at the smallest configuration the
point logit computed by the forward pass is `-0.5 * (3 * softplus 0)` — the
factor `point_attn_logits_scale` from `__init__` is never applied — and this
differs from the claimed value
`-0.5 * scale_p * precision * (sum of squared distances)`. -/
theorem point_logit_omits_scale :
    attn_logits_points pointParams onesSingle 0 0 0 0 =
      -(1 / 2 : ℝ) * (3 * softplus 0) ∧
    attn_logits_points pointParams onesSingle 0 0 0 0 ≠
      -(1 / 2 : ℝ) * point_attn_logits_scale 1 *
        (softplus 0 * ∑ c, point_dist pointParams onesSingle 0 0 0 0 c) := by
  refine ⟨attn_logits_points_ones, ?_⟩
  rw [attn_logits_points_ones]
  have hs : (∑ c, point_dist pointParams onesSingle 0 0 0 0 c) = 3 := by
    rw [Finset.sum_congr rfl fun c _ => point_dist_ones c]
    simp
  rw [hs]
  intro hEq
  have key : point_attn_logits_scale 1 * softplus 0 = 1 * softplus 0 := by
    rw [one_mul]
    nlinarith [hEq]
  have hone : point_attn_logits_scale 1 = 1 :=
    mul_right_cancel₀ (ne_of_gt softplus_zero_pos) key
  linarith [point_scale_lt_one]

/-- C5: with a mask in which key entity j is invalid, the attention weight
from any valid query entity i to j is at most ε times the row's maximum
weight, for every ε > 0 such that the mask sentinel `max_neg_value` sits at
least `log (1/ε)` below some valid key's logit in that row (the numerical
reading of "negligible relative to the row maximum" for any dtype, whose
largest finite value is `finfoMax`). -/
theorem masked_key_weight_negligible
    {b n dim heads dk dv pk pv pd : ℕ}
    (P : Params dim heads dk dv pk pv pd)
    (x : Fin b → Fin n → Fin dim → ℝ)
    (pair : Fin b → Fin n → Fin n → Fin pd → ℝ)
    (finfoMax : ℝ) (m : Fin b → Fin n → Bool) (bi : Fin b) (h : Fin heads)
    (i j j₀ : Fin n) (ε : ℝ)
    (hmi : m bi i = true) (hmj : m bi j = false) (hmj₀ : m bi j₀ = true)
    (hε : 0 < ε)
    (hgap : max_neg_value finfoMax + Real.log ε⁻¹ ≤ attn_logits P x pair bi h i j₀) :
    attn P x pair (max_neg_value finfoMax) (some m) bi h i j ≤
      ε * Finset.univ.sup' ⟨j, Finset.mem_univ j⟩
        (fun j' => attn P x pair (max_neg_value finfoMax) (some m) bi h i j') :=
  attn_masked_le P x pair (max_neg_value finfoMax) m bi h i j j₀ ε
    hmi hmj hmj₀ hε hgap

/-- Witness for C5 at a concrete input: one batch, two entities, entity 1
masked out, all-zero parameters and inputs, dtype bound 1 and ε = 1. -/
theorem masked_key_weight_negligible_witness :
    maskFirst 0 (1 : Fin 2) = false ∧
    attn zeroParams zeroSingle2 zeroPair2 (max_neg_value 1) (some maskFirst) 0 0 0 1 ≤
      1 * Finset.univ.sup' ⟨(1 : Fin 2), Finset.mem_univ _⟩
        (fun j' =>
          attn zeroParams zeroSingle2 zeroPair2 (max_neg_value 1)
            (some maskFirst) 0 0 0 j') := by
  refine ⟨rfl, ?_⟩
  apply masked_key_weight_negligible zeroParams zeroSingle2 zeroPair2 1 maskFirst
    0 0 0 1 0 1 rfl rfl rfl one_pos
  rw [attn_logits_zero]
  simp [max_neg_value]

/-- C6: every (batch, head, query) row of the post-softmax attention sums
to 1 whether or not a mask is supplied, and when a mask is supplied a masked
key position's weight is at most ε times the row's maximum weight for every
ε > 0 whose sentinel gap condition holds (the numerical reading of "zero
probability"). -/
theorem attn_rows_normalized
    {b n dim heads dk dv pk pv pd : ℕ}
    (P : Params dim heads dk dv pk pv pd)
    (x : Fin b → Fin n → Fin dim → ℝ)
    (pair : Fin b → Fin n → Fin n → Fin pd → ℝ)
    (mv : ℝ) (mo : Option (Fin b → Fin n → Bool)) (bi : Fin b)
    (h : Fin heads) (i : Fin n) :
    (∑ j, attn P x pair mv mo bi h i j) = 1 ∧
    (∀ (m : Fin b → Fin n → Bool) (j j₀ : Fin n) (ε : ℝ), mo = some m →
      m bi i = true → m bi j = false → m bi j₀ = true → 0 < ε →
      mv + Real.log ε⁻¹ ≤ attn_logits P x pair bi h i j₀ →
      attn P x pair mv mo bi h i j ≤
        ε * Finset.univ.sup' ⟨j, Finset.mem_univ j⟩
          (fun j' => attn P x pair mv mo bi h i j')) := by
  constructor
  · exact attn_sum_one P x pair mv mo bi h i
  · intro m j j₀ ε hmo hmi hmj hmj₀ hε hgap
    subst hmo
    exact attn_masked_le P x pair mv m bi h i j j₀ ε hmi hmj hmj₀ hε hgap

/-- Witness for C6 at a concrete input: the masked row of the C5 witness
sums to 1, and its masked position carries negligible weight. -/
theorem attn_rows_normalized_witness :
    (∑ j, attn zeroParams zeroSingle2 zeroPair2 (max_neg_value 1)
        (some maskFirst) 0 0 0 j) = 1 ∧
    attn zeroParams zeroSingle2 zeroPair2 (max_neg_value 1) (some maskFirst) 0 0 0 1 ≤
      1 * Finset.univ.sup' ⟨(1 : Fin 2), Finset.mem_univ _⟩
        (fun j' =>
          attn zeroParams zeroSingle2 zeroPair2 (max_neg_value 1)
            (some maskFirst) 0 0 0 j') := by
  refine ⟨(attn_rows_normalized zeroParams zeroSingle2 zeroPair2
      (max_neg_value 1) (some maskFirst) 0 0 0).1, ?_⟩
  apply (attn_rows_normalized zeroParams zeroSingle2 zeroPair2
      (max_neg_value 1) (some maskFirst) 0 0 0).2 maskFirst 1 0 1 rfl rfl rfl rfl one_pos
  rw [attn_logits_zero]
  simp [max_neg_value]

section PermLemmas

variable {b n dim heads dk dv pk pv pd : ℕ}

theorem masked_logits_perm (σ : Equiv.Perm (Fin n))
    (P : Params dim heads dk dv pk pv pd)
    (x : Fin b → Fin n → Fin dim → ℝ) (pair : Fin b → Fin n → Fin n → Fin pd → ℝ)
    (mv : ℝ) (mo : Option (Fin b → Fin n → Bool)) (bi : Fin b) (h : Fin heads)
    (i j : Fin n) :
    masked_logits P (fun bi' i' => x bi' (σ i'))
        (fun bi' i' j' => pair bi' (σ i') (σ j')) mv
        (mo.map fun m => fun bi' i' => m bi' (σ i')) bi h i j =
      masked_logits P x pair mv mo bi h (σ i) (σ j) := by
  cases mo <;> rfl

theorem attn_perm (σ : Equiv.Perm (Fin n))
    (P : Params dim heads dk dv pk pv pd)
    (x : Fin b → Fin n → Fin dim → ℝ) (pair : Fin b → Fin n → Fin n → Fin pd → ℝ)
    (mv : ℝ) (mo : Option (Fin b → Fin n → Bool)) (bi : Fin b) (h : Fin heads)
    (i j : Fin n) :
    attn P (fun bi' i' => x bi' (σ i'))
        (fun bi' i' j' => pair bi' (σ i') (σ j')) mv
        (mo.map fun m => fun bi' i' => m bi' (σ i')) bi h i j =
      attn P x pair mv mo bi h (σ i) (σ j) := by
  unfold attn
  rw [masked_logits_perm σ P x pair mv mo bi h i j]
  have hden :
      (∑ j', Real.exp (masked_logits P (fun bi' i' => x bi' (σ i'))
          (fun bi' i' j' => pair bi' (σ i') (σ j')) mv
          (mo.map fun m => fun bi' i' => m bi' (σ i')) bi h i j')) =
        ∑ j', Real.exp (masked_logits P x pair mv mo bi h (σ i) j') := by
    rw [Finset.sum_congr rfl fun j' _ => by
      rw [masked_logits_perm σ P x pair mv mo bi h i j']]
    exact Equiv.sum_comp σ fun j' =>
      Real.exp (masked_logits P x pair mv mo bi h (σ i) j')
  rw [hden]

theorem results_cat_perm (σ : Equiv.Perm (Fin n))
    (P : Params dim heads dk dv pk pv pd)
    (x : Fin b → Fin n → Fin dim → ℝ) (pair : Fin b → Fin n → Fin n → Fin pd → ℝ)
    (mv : ℝ) (mo : Option (Fin b → Fin n → Bool)) (bi : Fin b) (i : Fin n)
    (idx : OutIdx heads dv pd pv) :
    results_cat P (fun bi' i' => x bi' (σ i'))
        (fun bi' i' j' => pair bi' (σ i') (σ j')) mv
        (mo.map fun m => fun bi' i' => m bi' (σ i')) bi i idx =
      results_cat P x pair mv mo bi (σ i) idx := by
  rcases idx with ⟨h, d⟩ | ⟨h, f⟩ | ⟨h, d, c⟩
  · show results_scalar _ _ _ _ _ _ _ _ _ = results_scalar _ _ _ _ _ _ _ _ _
    unfold results_scalar
    rw [Finset.sum_congr rfl fun j _ => by
      rw [attn_perm σ P x pair mv mo bi h i j]]
    exact Equiv.sum_comp σ fun j =>
      attn P x pair mv mo bi h (σ i) j * v_scalar P x bi h j d
  · show results_pairwise _ _ _ _ _ _ _ _ _ = results_pairwise _ _ _ _ _ _ _ _ _
    unfold results_pairwise
    rw [Finset.sum_congr rfl fun j _ => by
      rw [attn_perm σ P x pair mv mo bi h i j]]
    exact Equiv.sum_comp σ fun j =>
      attn P x pair mv mo bi h (σ i) j * pair bi (σ i) j f
  · show results_points _ _ _ _ _ _ _ _ _ _ = results_points _ _ _ _ _ _ _ _ _ _
    unfold results_points
    rw [Finset.sum_congr rfl fun j _ => by
      rw [attn_perm σ P x pair mv mo bi h i j]]
    exact Equiv.sum_comp σ fun j =>
      attn P x pair mv mo bi h (σ i) j * v_point P x bi h j d c

end PermLemmas

/-- C7: permuting the entity axis consistently across `single_repr`,
`pairwise_repr`, `rotations`, `translations` and the mask produces the
identically-permuted output: entry i of the permuted call equals entry σ(i)
of the original call, for every permutation σ and every input. -/
theorem forward_permutation_equivariant
    {b n dim heads dk dv pk pv pd : ℕ} (σ : Equiv.Perm (Fin n))
    (P : Params dim heads dk dv pk pv pd)
    (x : Fin b → Fin n → Fin dim → ℝ) (pair : Fin b → Fin n → Fin n → Fin pd → ℝ)
    (rot : Fin b → Fin n → Fin 3 → Fin 3 → ℝ) (trans : Fin b → Fin n → Fin 3 → ℝ)
    (finfoMax : ℝ) (mo : Option (Fin b → Fin n → Bool)) (bi : Fin b) (i : Fin n)
    (o : Fin dim) :
    forward P (fun bi' i' => x bi' (σ i'))
        (fun bi' i' j' => pair bi' (σ i') (σ j'))
        (fun bi' i' => rot bi' (σ i')) (fun bi' i' => trans bi' (σ i'))
        finfoMax (mo.map fun m => fun bi' i' => m bi' (σ i')) bi i o =
      forward P x pair rot trans finfoMax mo bi (σ i) o := by
  unfold forward
  rw [Finset.sum_congr rfl fun idx _ => by
    rw [results_cat_perm σ P x pair (max_neg_value finfoMax) mo bi i idx]]

/-! ## Shape-evaluation lemmas -/

section ShapeLemmas

@[simp]
theorem ok_bind {α β : Type} (v : α) (f : α → Except String β) :
    (Except.ok v >>= f : Except String β) = f v :=
  rfl

@[simp]
theorem error_bind {α β : Type} (e : String) (f : α → Except String β) :
    (Except.error e >>= f : Except String β) = Except.error e :=
  rfl

theorem broadcastRev_self (l : List ℕ) : broadcastRev l l = some l := by
  induction l with
  | nil => rfl
  | cons a t ih => simp [broadcastRev, dimCompat, ih]

@[simp]
theorem broadcastOpShape_self (s : Shape) : broadcastOpShape s s = .ok s := by
  simp [broadcastOpShape, broadcastShapes, broadcastRev_self s.reverse]

@[simp]
theorem linearShape_eval3 (inF outF a c : ℕ) :
    linearShape inF outF [a, c, inF] = .ok [a, c, outF] := by
  simp [linearShape]

@[simp]
theorem linearShape_eval4 (inF outF a c d : ℕ) :
    linearShape inF outF [a, c, d, inF] = .ok [a, c, d, outF] := by
  simp [linearShape]

theorem splitHeadsShape_eval {h : ℕ} (hh : 0 < h) (a c m : ℕ) :
    splitHeadsShape h [a, c, m * h] = .ok [a * h, c, m] := by
  simp [splitHeadsShape, hh, Nat.mul_mod_left, Nat.mul_div_cancel _ hh]

theorem splitHeadsPointShape_eval {h : ℕ} (hh : 0 < h) (a c m : ℕ) :
    splitHeadsPointShape h [a, c, m * h * 3] = .ok [a * h, c, m, 3] := by
  have h3 : 0 < h * 3 := by positivity
  have hmod : m * h * 3 % (h * 3) = 0 := by
    rw [mul_assoc]
    exact Nat.mul_mod_left _ _
  have hdiv : m * h * 3 / (h * 3) = m := by
    rw [mul_assoc]
    exact Nat.mul_div_cancel _ h3
  simp [splitHeadsPointShape, hh, hmod, hdiv]

@[simp]
theorem einsumQK_eval (a i j d : ℕ) : einsumQK [a, i, d] [a, j, d] = .ok [a, i, j] := by
  simp [einsumQK]

@[simp]
theorem einsumAV_eval (a i j d : ℕ) : einsumAV [a, i, j] [a, j, d] = .ok [a, i, d] := by
  simp [einsumAV]

@[simp]
theorem einsumPairwiseAV_eval (a h i j d : ℕ) :
    einsumPairwiseAV [a, h, i, j] [a, i, j, d] = .ok [a, h, i, d] := by
  simp [einsumPairwiseAV]

@[simp]
theorem einsumPointAV_eval (a i j d c : ℕ) :
    einsumPointAV [a, i, j] [a, j, d, c] = .ok [a, i, d, c] := by
  simp [einsumPointAV]

@[simp]
theorem foldLastIntoBatchShape_eval (a c d h : ℕ) :
    foldLastIntoBatchShape [a, c, d, h] = .ok [a * h, c, d] := by
  simp [foldLastIntoBatchShape]

@[simp]
theorem unsqueezeQShape_eval (a i d c : ℕ) :
    unsqueezeQShape [a, i, d, c] = .ok [a, i, 1, d, c] :=
  rfl

@[simp]
theorem unsqueezeKShape_eval (a j d c : ℕ) :
    unsqueezeKShape [a, j, d, c] = .ok [a, 1, j, d, c] :=
  rfl

theorem broadcastOp_diff_eval {c : ℕ} (hc : 0 < c) (a d e : ℕ) :
    broadcastOpShape [a, c, 1, d, e] [a, 1, c, d, e] = .ok [a, c, c, d, e] := by
  simp [broadcastOpShape, broadcastShapes, broadcastRev, dimCompat,
    Nat.max_eq_left hc, Nat.max_eq_right hc]

theorem broadcastOp_weights_eval {c d e : ℕ} (hc : 0 < c) (hd : 0 < d)
    (he : 0 < e) (a : ℕ) :
    broadcastOpShape [a, c, d, e] [a, 1, 1, 1] = .ok [a, c, d, e] := by
  simp [broadcastOpShape, broadcastShapes, broadcastRev, dimCompat,
    Nat.max_eq_left hc, Nat.max_eq_left hd, Nat.max_eq_left he]

@[simp]
theorem sumDimNeg2Shape_eval (a c d e f : ℕ) :
    sumDimNeg2Shape [a, c, d, e, f] = .ok [a, c, d, f] := by
  simp [sumDimNeg2Shape]

@[simp]
theorem sumLastShape_eval (a c d e : ℕ) :
    sumLastShape [a, c, d, e] = .ok [a, c, d] := by
  simp [sumLastShape]

@[simp]
theorem softmaxShape_eval (a : ℕ) (s : Shape) :
    softmaxShape (a :: s) = .ok (a :: s) := by
  simp [softmaxShape]

theorem unfoldBatchHeadsShape_eval {h : ℕ} (hh : 0 < h) (a i j : ℕ) :
    unfoldBatchHeadsShape h [a * h, i, j] = .ok [a, h, i, j] := by
  simp [unfoldBatchHeadsShape, hh, Nat.mul_mod_left, Nat.mul_div_cancel _ hh]

theorem mergeHeadsShape_eval {h : ℕ} (hh : 0 < h) (a c d : ℕ) :
    mergeHeadsShape h [a * h, c, d] = .ok [a, c, d * h] := by
  have hcomm : h * d = d * h := Nat.mul_comm h d
  simp [mergeHeadsShape, hh, Nat.mul_mod_left, Nat.mul_div_cancel _ hh, hcomm]

@[simp]
theorem mergeHeadsAxisShape_eval (h a c d : ℕ) :
    mergeHeadsAxisShape h [a, h, c, d] = .ok [a, c, d * h] := by
  have hcomm : h * d = d * h := Nat.mul_comm h d
  simp [mergeHeadsAxisShape, hcomm]

theorem mergeHeadsPointShape_eval {h : ℕ} (hh : 0 < h) (a c d e : ℕ) :
    mergeHeadsPointShape h [a * h, c, d, e] = .ok [a, c, d * h * e] := by
  have hcomm : h * d * e = d * h * e := by ring
  simp [mergeHeadsPointShape, hh, Nat.mul_mod_left, Nat.mul_div_cancel _ hh, hcomm]

@[simp]
theorem catLastShape_eval (a c d e : ℕ) :
    catLastShape [a, c, d] [a, c, e] = .ok [a, c, d + e] := by
  simp [catLastShape]

theorem maskPairShape_eval {mi : ℕ} (hmi : 0 < mi) (mb : ℕ) :
    maskPairShape [mb, mi] = .ok [mb, mi, mi] := by
  simp [maskPairShape, broadcastOpShape, broadcastShapes, broadcastRev, dimCompat,
    Nat.max_eq_left hmi, Nat.max_eq_right hmi]

@[simp]
theorem headDimShape_eval (a : ℕ) (s : List ℕ) : headDimShape (a :: s) = .ok a :=
  rfl

theorem maskStepShape_ok_eq {logits t : Shape} {mo : Option Shape}
    (hms : maskStepShape logits mo = .ok t) : t = logits := by
  cases mo with
  | none =>
    simpa [maskStepShape] using hms.symm
  | some sm =>
    rw [maskStepShape] at hms
    cases hmp : maskPairShape sm with
    | error e => rw [hmp] at hms; exact absurd hms (by simp)
    | ok mp =>
      rw [hmp] at hms
      simp only [ok_bind, maskedFillShape] at hms
      by_cases hbc : broadcastShapes mp logits = some logits
      · rw [if_pos hbc] at hms
        exact (Except.ok.injEq _ _ ▸ hms).symm
      · rw [if_neg hbc] at hms
        exact absurd hms (by simp)

theorem projectionShapes_eval (cfg : Config) (bS nS : ℕ) (hh : 0 < cfg.heads) :
    projectionShapes cfg [bS, nS, cfg.dim] =
      .ok ⟨[bS * cfg.heads, nS, cfg.scalar_key_dim],
        [bS * cfg.heads, nS, cfg.scalar_key_dim],
        [bS * cfg.heads, nS, cfg.scalar_value_dim],
        [bS * cfg.heads, nS, cfg.point_key_dim, 3],
        [bS * cfg.heads, nS, cfg.point_key_dim, 3],
        [bS * cfg.heads, nS, cfg.point_value_dim, 3]⟩ := by
  simp only [projectionShapes, ok_bind, linearShape_eval3,
    splitHeadsShape_eval hh, splitHeadsPointShape_eval hh]

theorem pairwiseLogitsShape_eval (cfg : Config) (bS nS : ℕ) :
    pairwiseLogitsShape cfg [bS, nS, nS, cfg.pairwise_repr_dim] =
      .ok [bS * cfg.heads, nS, nS] := by
  simp only [pairwiseLogitsShape, ok_bind, linearShape_eval4,
    foldLastIntoBatchShape_eval]

theorem pointLogitsShape_eval (cfg : Config) (bS nS : ℕ) (hn : 0 < nS)
    (hh : 0 < cfg.heads) :
    pointLogitsShape cfg [bS, nS, cfg.dim]
        [bS * cfg.heads, nS, cfg.point_key_dim, 3]
        [bS * cfg.heads, nS, cfg.point_key_dim, 3] =
      .ok [bS * cfg.heads, nS, nS] := by
  simp only [pointLogitsShape, ok_bind, unsqueezeQShape_eval, unsqueezeKShape_eval,
    broadcastOp_diff_eval hn, sumDimNeg2Shape_eval, headDimShape_eval,
    broadcastOp_weights_eval hn hn (by norm_num : (0 : ℕ) < 3), sumLastShape_eval]

theorem combineMaskSoftmaxShape_eval (bh nS : ℕ) (mo : Option Shape) :
    combineMaskSoftmaxShape [bh, nS, nS] [bh, nS, nS] [bh, nS, nS] mo =
      maskStepShape [bh, nS, nS] mo >>= fun _ =>
        Except.ok [bh, nS, nS] := by
  simp only [combineMaskSoftmaxShape, ok_bind, broadcastOpShape_self]
  cases hms : maskStepShape [bh, nS, nS] mo with
  | error e => simp
  | ok l =>
    have hl : l = [bh, nS, nS] := maskStepShape_ok_eq hms
    subst hl
    simp only [ok_bind, softmaxShape_eval]

theorem aggregateShape_eval (cfg : Config) (bS nS : ℕ) (hh : 0 < cfg.heads) :
    aggregateShape cfg [bS, nS, nS, cfg.pairwise_repr_dim]
        [bS * cfg.heads, nS, nS]
        [bS * cfg.heads, nS, cfg.scalar_value_dim]
        [bS * cfg.heads, nS, cfg.point_value_dim, 3] =
      .ok [bS, nS, cfg.dim] := by
  simp only [aggregateShape, ok_bind, einsumAV_eval,
    unfoldBatchHeadsShape_eval hh, einsumPairwiseAV_eval, einsumPointAV_eval,
    mergeHeadsShape_eval hh, mergeHeadsAxisShape_eval,
    mergeHeadsPointShape_eval hh, catLastShape_eval, linearShape_eval3]

/-- Master evaluation: on validly shaped inputs, the forward shape computation
succeeds up to the mask step, whose outcome depends only on the mask shape
against the folded logits shape `[b * heads, n, n]`, and all later steps
succeed yielding `[b, n, dim]`. -/
theorem forwardShape_eval (cfg : Config) (bS nS : ℕ) (sr st : Shape)
    (mo : Option Shape) (hn : 0 < nS) (hh : 0 < cfg.heads) :
    forwardShape cfg [bS, nS, cfg.dim] [bS, nS, nS, cfg.pairwise_repr_dim]
        sr st mo =
      maskStepShape [bS * cfg.heads, nS, nS] mo >>= fun _ =>
        Except.ok [bS, nS, cfg.dim] := by
  simp only [forwardShape, ok_bind, projectionShapes_eval cfg bS nS hh,
    einsumQK_eval, pairwiseLogitsShape_eval, pointLogitsShape_eval cfg bS nS hn hh,
    combineMaskSoftmaxShape_eval]
  cases hms : maskStepShape [bS * cfg.heads, nS, nS] mo with
  | error e => simp
  | ok l =>
    simp only [ok_bind, aggregateShape_eval cfg bS nS hh]

theorem broadcastShapes_batch (bS bh nS : ℕ) :
    broadcastShapes [bS, nS, nS] [bh, nS, nS] =
      if dimCompat bS bh then some [max bS bh, nS, nS] else none := by
  have hnn : dimCompat nS nS = true := by simp [dimCompat]
  by_cases hc : dimCompat bS bh = true
  · simp [broadcastShapes, broadcastRev, hnn, hc]
  · have hc' : dimCompat bS bh = false := by
      revert hc
      cases dimCompat bS bh <;> simp
    simp [broadcastShapes, broadcastRev, hnn, hc']

theorem maskStepShape_mask2d (bS nS bh : ℕ) (hn : 0 < nS) :
    maskStepShape [bh, nS, nS] (some [bS, nS]) =
      maskedFillShape [bh, nS, nS] [bS, nS, nS] := by
  rw [maskStepShape, maskPairShape_eval hn bS, ok_bind]

theorem maskedFillShape_batch_ok {bS bh : ℕ} (nS : ℕ)
    (h1 : dimCompat bS bh = true) (h2 : max bS bh = bh) :
    maskedFillShape [bh, nS, nS] [bS, nS, nS] = .ok [bh, nS, nS] := by
  simp [maskedFillShape, broadcastShapes_batch, h1, h2]

theorem maskedFillShape_batch_err {bS bh : ℕ} (nS : ℕ)
    (h1 : dimCompat bS bh = false) :
    maskedFillShape [bh, nS, nS] [bS, nS, nS] =
      .error "masked_fill: mask is not broadcastable to the logits shape" := by
  simp [maskedFillShape, broadcastShapes_batch, h1]

end ShapeLemmas

/-- C3: with a mask of the documented shape (B, N) supplied, the forward pass
fails with a broadcast error at the `masked_fill` step whenever B ≥ 2 and
heads ≥ 2, because the (B, N, N) pairwise mask is never expanded across heads
to match the (B·heads, N, N) logits; masking completes exactly when B = 1 or
heads = 1. -/
theorem mask_broadcast_fails_for_multi_batch_multi_head
    (cfg : Config) (bS nS : ℕ) (sr st : Shape)
    (hn : 0 < nS) (hh : 0 < cfg.heads) :
    (2 ≤ bS → 2 ≤ cfg.heads →
      forwardShape cfg [bS, nS, cfg.dim] [bS, nS, nS, cfg.pairwise_repr_dim]
          sr st (some [bS, nS]) =
        .error "masked_fill: mask is not broadcastable to the logits shape") ∧
    (bS = 1 ∨ cfg.heads = 1 →
      forwardShape cfg [bS, nS, cfg.dim] [bS, nS, nS, cfg.pairwise_repr_dim]
          sr st (some [bS, nS]) = .ok [bS, nS, cfg.dim]) := by
  constructor
  · intro hb2 hh2
    have hlt : bS < bS * cfg.heads := by
      have hmul : bS * 2 ≤ bS * cfg.heads := Nat.mul_le_mul_left bS hh2
      omega
    have hdc : dimCompat bS (bS * cfg.heads) = false := by
      simp only [dimCompat, Bool.or_eq_false_iff, beq_eq_false_iff_ne, ne_eq]
      omega
    rw [forwardShape_eval cfg bS nS sr st _ hn hh,
      maskStepShape_mask2d bS nS (bS * cfg.heads) hn,
      maskedFillShape_batch_err nS hdc, error_bind]
  · intro hcase
    have hkey : dimCompat bS (bS * cfg.heads) = true ∧
        max bS (bS * cfg.heads) = bS * cfg.heads := by
      rcases hcase with hb1 | hh1
      · subst hb1
        refine ⟨by simp [dimCompat], ?_⟩
        have : 1 ≤ 1 * cfg.heads := by simpa using hh
        exact Nat.max_eq_right this
      · rw [hh1, Nat.mul_one]
        exact ⟨by simp [dimCompat], Nat.max_self bS⟩
    rw [forwardShape_eval cfg bS nS sr st _ hn hh,
      maskStepShape_mask2d bS nS (bS * cfg.heads) hn,
      maskedFillShape_batch_ok nS hkey.1 hkey.2, ok_bind]

/-- Witness for C3 at a concrete configuration: heads = 2, batch = 2 errors
at `masked_fill`; batch = 1 completes. -/
theorem mask_broadcast_fails_witness :
    forwardShape cfgSmall [2, 2, 4] [2, 2, 2, 4] [2, 2, 3, 3] [2, 2, 3]
        (some [2, 2]) =
      .error "masked_fill: mask is not broadcastable to the logits shape" ∧
    forwardShape cfgSmall [1, 2, 4] [1, 2, 2, 4] [1, 2, 3, 3] [1, 2, 3]
        (some [1, 2]) = .ok [1, 2, 4] := by
  constructor
  · exact (mask_broadcast_fails_for_multi_batch_multi_head cfgSmall 2 2
      [2, 2, 3, 3] [2, 2, 3] (by decide) (by decide)).1 (by decide) (by decide)
  · exact (mask_broadcast_fails_for_multi_batch_multi_head cfgSmall 1 2
      [1, 2, 3, 3] [1, 2, 3] (by decide) (by decide)).2 (Or.inl rfl)

/-- C4 counterexample: `rotations` of shape [7, 9] and `translations` of
shape [1] disagree with every shared axis of the other inputs (and are not
even rank 4 and rank 3), yet the call completes and returns the usual output
shape instead of failing. -/
theorem shape_mismatch_not_detected_for_rotations :
    forwardShape cfgSmall [2, 3, 4] [2, 3, 3, 4] [7, 9] [1] none =
      .ok [2, 3, 4] := by
  rfl

/-- C4 amended: a shape mismatch on an axis the computation actually consumes
surfaces as a synchronous error when the offending tensor is first used
(after the projections have already run, not before any computation); the
`rotations` and `translations` shapes are never validated or read, so any
mismatch there completes silently. -/
theorem consumed_axis_mismatch_errors_frames_unchecked
    (cfg : Config) (bS nS q : ℕ) (sr st : Shape)
    (hn : 0 < nS) (hh : 0 < cfg.heads) (hq : q ≠ cfg.pairwise_repr_dim) :
    forwardShape cfg [bS, nS, cfg.dim] [bS, nS, nS, cfg.pairwise_repr_dim]
        sr st none = .ok [bS, nS, cfg.dim] ∧
    forwardShape cfg [bS, nS, cfg.dim] [bS, nS, nS, q] sr st none =
      .error "linear: in_features mismatch" := by
  constructor
  · rw [forwardShape_eval cfg bS nS sr st none hn hh]
    rfl
  · have hlin : linearShape cfg.pairwise_repr_dim cfg.heads [bS, nS, nS, q] =
        .error "linear: in_features mismatch" := by
      simp [linearShape, hq]
    simp only [forwardShape, ok_bind, projectionShapes_eval cfg bS nS hh,
      einsumQK_eval, pairwiseLogitsShape, hlin, error_bind]

/-- Witness for C4's amended statement at a concrete configuration. -/
theorem consumed_axis_mismatch_witness :
    forwardShape cfgSmall [1, 2, 4] [1, 2, 2, 4] [9] [] none = .ok [1, 2, 4] ∧
    forwardShape cfgSmall [1, 2, 4] [1, 2, 2, 5] [9] [] none =
      .error "linear: in_features mismatch" :=
  consumed_axis_mismatch_errors_frames_unchecked cfgSmall 1 2 5 [9] []
    (by decide) (by decide) (by decide)

/-- C9: on validly shaped inputs without a mask the returned shape is
(B, N, dim), the same as `single_repr`; and whenever a call (masked or not)
returns at all, the returned shape is (B, N, dim). -/
theorem output_shape_equals_single_repr_shape
    (cfg : Config) (bS nS : ℕ) (sr st : Shape)
    (hn : 0 < nS) (hh : 0 < cfg.heads) :
    forwardShape cfg [bS, nS, cfg.dim] [bS, nS, nS, cfg.pairwise_repr_dim]
        sr st none = .ok [bS, nS, cfg.dim] ∧
    (∀ (mo : Option Shape) (s : Shape),
      forwardShape cfg [bS, nS, cfg.dim] [bS, nS, nS, cfg.pairwise_repr_dim]
          sr st mo = .ok s → s = [bS, nS, cfg.dim]) := by
  constructor
  · rw [forwardShape_eval cfg bS nS sr st none hn hh]
    rfl
  · intro mo s hok
    rw [forwardShape_eval cfg bS nS sr st mo hn hh] at hok
    cases hms : maskStepShape [bS * cfg.heads, nS, nS] mo with
    | error e =>
      rw [hms, error_bind] at hok
      exact absurd hok (by simp)
    | ok l =>
      rw [hms, ok_bind] at hok
      exact (Except.ok.injEq _ _ ▸ hok).symm

/-- Witness for C9 at a concrete configuration, including a masked call that
returns. -/
theorem output_shape_witness :
    forwardShape cfgSmall [1, 2, 4] [1, 2, 2, 4] [1, 2, 3, 3] [1, 2, 3] none =
      .ok [1, 2, 4] ∧
    ([1, 2, 4] : Shape) = [1, 2, 4] :=
  ⟨(output_shape_equals_single_repr_shape cfgSmall 1 2 [1, 2, 3, 3] [1, 2, 3]
      (by decide) (by decide)).1,
    (output_shape_equals_single_repr_shape cfgSmall 1 2 [1, 2, 3, 3] [1, 2, 3]
      (by decide) (by decide)).2 (some [1, 2]) [1, 2, 4] (by rfl)⟩

end InvariantPointAttention
